import Mathlib

/-!
Shallow embedding of the recipe store of `src/database.py` (classes
`Database`, `Recipe`, `Ingredient`, `RecipeIngredientAssociation`, the
helper `_range_predicate`, and the exceptions), together with proofs
about the claims of the specification.

Modelling conventions:
* The external ingredient parser (`nlu.extract_ingredient_parts`) and the
  ingredient-name normalizer (`nlu.normalize_ingredient_name`) are not part
  of the store; they are passed as parameters (`parse`, `normalize`).
  An unparsable line is `none`.
* The SQL tables become Lean lists held in a `Store` structure; surrogate
  keys are `Nat` counters.
* `Database.get_recipes` rebinds `include_ingredients` and
  `exclude_ingredients` to Python generator objects before testing
  `if include_ingredients or exclude_ingredients:`.  A generator object is
  always truthy, which `generator_truthy` records; both branches of the
  conditional are embedded.
* The legacy SQLAlchemy `Query` deduplicates full-entity results through
  the identity map; `query_unique` models that uniquing (first occurrence
  of each recipe id is kept).
* `between` in SQL is inclusive; a comparison with SQL `NULL`
  (`attribute <= None`, reachable only for the range `(None, None)`)
  is never true, modelled by the constantly-false predicate.
-/

/-- Output of the external ingredient parser for one parsable line:
the dictionary `{base_ingredient, unit, quantity, modifiers}` where the
non-name fields may be missing (`defaultdict(lambda: None, ...)`). -/
structure IngredientParts where
  base_ingredient : String
  quantity : Option String
  unit : Option String
  modifiers : Option String
deriving DecidableEq

/-- The `recipe_parts` dictionary accepted by `Database.add_from_recipe_parts`. -/
structure RecipeParts where
  title : String
  author : String
  url : String
  description : String
  num_steps : Nat
  servings : String
  prep_time : Nat
  cook_time : Nat
  total_time : Nat
  ingredients : List String
  steps : List String
deriving DecidableEq

/-- A row of the `ingredients` table (class `Ingredient`). -/
structure Ingredient where
  id : Nat
  name : String
deriving DecidableEq

/-- A row of the `recipe_ingredient_association` table
(class `RecipeIngredientAssociation`); the owning recipe is implicit in
the recipe's ordered association list. -/
structure RecipeIngredientAssociation where
  ingredient_id : Nat
  quantity : Option String
  unit : Option String
  modifiers : Option String
deriving DecidableEq

/-- A row of the `recipes` table (class `Recipe`) together with its
ordered association collection (`Recipe.ingredients`, the relationship
to `RecipeIngredientAssociation`). -/
structure Recipe where
  id : Nat
  url : String
  title : String
  author : String
  description : String
  num_steps : Nat
  servings : String
  prep_time : Nat
  cook_time : Nat
  total_time : Nat
  ingredients_text : String
  steps_text : String
  ingredients : List RecipeIngredientAssociation
deriving DecidableEq

/-- The persistent state behind a `Database` session: the `recipes` and
`ingredients` tables plus the surrogate-key counters. -/
structure Store where
  recipes : List Recipe
  ingredients : List Ingredient
  next_ingredient_id : Nat
  next_recipe_id : Nat
deriving DecidableEq

/-- The store with empty tables (fresh schema). -/
def empty_store : Store := ⟨[], [], 0, 0⟩

/-- `DuplicateRecipeException` of the source. -/
inductive DatabaseError where
  | duplicateRecipe
deriving DecidableEq

/-- The `ValueError` raised by `_range_predicate` for a malformed range
(the spec's `InvalidRange`). -/
inductive RangeError where
  | invalidRange
deriving DecidableEq

/-- One iteration of the ingredient loop of `add_from_recipe_parts`
(lines 153-169 of `database.py`): parse the line; if unparsable, skip it;
otherwise find or create the `Ingredient` row and append an association.
The state is `(ingredients table, next ingredient id, associations so far)`. -/
def ingest_step (parse : String → Option IngredientParts)
    (st : List Ingredient × Nat × List RecipeIngredientAssociation)
    (line : String) :
    List Ingredient × Nat × List RecipeIngredientAssociation :=
  match parse line with
  | none => st
  | some parts =>
    match st.1.find? (fun i => i.name == parts.base_ingredient) with
    | some ing =>
      (st.1, st.2.1,
       st.2.2 ++ [⟨ing.id, parts.quantity, parts.unit, parts.modifiers⟩])
    | none =>
      (st.1 ++ [⟨st.2.1, parts.base_ingredient⟩], st.2.1 + 1,
       st.2.2 ++ [⟨st.2.1, parts.quantity, parts.unit, parts.modifiers⟩])

/-- `Database.add_from_recipe_parts`: reject a duplicate `url` before any
mutation, otherwise build the recipe row, ingest the ingredient lines in
order, and commit recipe, associations and any new ingredients. -/
def add_from_recipe_parts (parse : String → Option IngredientParts)
    (db : Store) (rp : RecipeParts) : Except DatabaseError Store :=
  if (db.recipes.filter (fun r => r.url == rp.url)).isEmpty then
    let st := rp.ingredients.foldl (ingest_step parse)
      (db.ingredients, db.next_ingredient_id, [])
    let recipe : Recipe :=
      { id := db.next_recipe_id
        url := rp.url
        title := rp.title
        author := rp.author
        description := rp.description
        num_steps := rp.num_steps
        servings := rp.servings
        prep_time := rp.prep_time
        cook_time := rp.cook_time
        total_time := rp.total_time
        ingredients_text := String.intercalate "\n" rp.ingredients
        steps_text := String.intercalate "\n" rp.steps
        ingredients := st.2.2 }
    .ok { recipes := db.recipes ++ [recipe]
          ingredients := st.1
          next_ingredient_id := st.2.1
          next_recipe_id := db.next_recipe_id + 1 }
  else
    .error .duplicateRecipe

/-- A numeric search constraint of `get_recipes`: either a single scalar
value or an iterable of optional bounds (a Python tuple whose entries may
be `None`). -/
inductive RangeArg where
  | scalar (v : Nat)
  | iter (bounds : List (Option Nat))
deriving DecidableEq

/-- `_range_predicate` (lines 335-356): a scalar means exact equality; an
iterable must have exactly two elements, else `ValueError`; present bounds
give an inclusive interval, a one-sided comparison, or — for
`(None, None)` — the SQL comparison `attribute <= NULL`, which no row
satisfies. -/
def range_predicate : RangeArg → Except RangeError (Nat → Bool)
  | .scalar v => .ok (fun a => a == v)
  | .iter bounds =>
    if bounds.length ≠ 2 then .error .invalidRange
    else
      match bounds with
      | [some mn, some mx] => .ok (fun a => decide (mn ≤ a) && decide (a ≤ mx))
      | [some mn, none] => .ok (fun a => decide (mn ≤ a))
      | [none, some mx] => .ok (fun a => decide (a ≤ mx))
      | [none, none] => .ok (fun _ => false)
      | _ => .error .invalidRange

/-- Apply one optional numeric constraint of `get_recipes` to a row set:
`query.filter(_range_predicate(attr, val))` when the constraint is
supplied, the unchanged query otherwise. -/
def apply_range {α : Type} (attr : α → Nat) (c : Option RangeArg)
    (xs : List α) : Except RangeError (List α) :=
  match c with
  | none => .ok xs
  | some arg =>
    Except.bind (range_predicate arg)
      (fun p => .ok (xs.filter (fun x => p (attr x))))

/-- Python truthiness of a generator object: a generator is an object, so
it is always truthy, even when it would yield no elements.  This is what
`if include_ingredients or exclude_ingredients:` tests after lines
196-199 rebind both names to generators. -/
def generator_truthy (_terms : List String) : Bool := true

/-- The joined row set `join(join(RecipeIngredientAssociation, Recipe),
Ingredient)` (lines 204-206): one row per association whose ingredient
row resolves, carrying the owning recipe and the ingredient. -/
def triple_join (db : Store) : List (Recipe × Ingredient) :=
  db.recipes.flatMap (fun r =>
    r.ingredients.filterMap (fun a =>
      (db.ingredients.find? (fun i => i.id == a.ingredient_id)).map
        (fun i => (r, i))))

/-- Worker of `query_unique`: drop every recipe row whose id was already
seen, keeping first occurrences in order. -/
def dedup_go (seen : List Nat) : List Recipe → List Recipe
  | [] => []
  | r :: rs =>
    if seen.contains r.id then dedup_go seen rs
    else r :: dedup_go (r.id :: seen) rs

/-- Entity uniquing of the legacy SQLAlchemy `Query`: duplicate recipe
rows produced by the join collapse onto the identity-mapped object, so
only the first occurrence of each recipe id is kept. -/
def query_unique (rows : List Recipe) : List Recipe := dedup_go [] rows

/-- `Database.get_recipes` (lines 173-222): normalize the terms, always
take the joined branch (the generator guard is always truthy), apply one
equality filter per included term and one inequality filter per excluded
term to the joined rows, then the numeric range filters in source order
(total, cook, prep, steps), and return the uniqued recipe entities. -/
def get_recipes (normalize : String → String) (db : Store)
    (include_ingredients : List String) (exclude_ingredients : List String)
    (prep_time cook_time total_time num_steps : Option RangeArg) :
    Except RangeError (List Recipe) :=
  let incl := include_ingredients.map normalize
  let excl := exclude_ingredients.map normalize
  if generator_truthy incl || generator_truthy excl then
    let rows := triple_join db
    let rows := incl.foldl (fun rs n => rs.filter (fun x => x.2.name == n)) rows
    let rows := excl.foldl (fun rs n => rs.filter (fun x => x.2.name != n)) rows
    Except.bind (apply_range (fun x => x.1.total_time) total_time rows)
      (fun rows => Except.bind (apply_range (fun x => x.1.cook_time) cook_time rows)
        (fun rows => Except.bind (apply_range (fun x => x.1.prep_time) prep_time rows)
          (fun rows => Except.bind (apply_range (fun x => x.1.num_steps) num_steps rows)
            (fun rows => .ok (query_unique (rows.map (fun x => x.1)))))))
  else
    Except.bind (apply_range Recipe.total_time total_time db.recipes)
      (fun rs => Except.bind (apply_range Recipe.cook_time cook_time rs)
        (fun rs => Except.bind (apply_range Recipe.prep_time prep_time rs)
          (fun rs => Except.bind (apply_range Recipe.num_steps num_steps rs)
            (fun rs => .ok rs))))

/-- Name of the first ingredient row carrying a given id, if any. -/
def lookup_name (ings : List Ingredient) (iid : Nat) : Option String :=
  (ings.find? (fun i => i.id == iid)).map Ingredient.name

/-- Observable content of one association as the caller sees it through
`recipes[k].ingredients`: the referenced ingredient's name together with
the quantity, unit and modifiers of the line. -/
def assoc_view (ings : List Ingredient)
    (a : RecipeIngredientAssociation) :
    Option String × Option String × Option String × Option String :=
  (lookup_name ings a.ingredient_id, a.quantity, a.unit, a.modifiers)

/-- The same observable content read off the parser output for a line. -/
def parts_view (p : IngredientParts) :
    Option String × Option String × Option String × Option String :=
  (some p.base_ingredient, p.quantity, p.unit, p.modifiers)

/-- Referential well-formedness of a store: recipe ids are distinct and
every association resolves to an ingredient row.  Every store reachable
through `add_from_recipe_parts` satisfies this. -/
def Store.wf (db : Store) : Prop :=
  (db.recipes.map Recipe.id).Nodup ∧
  ∀ r ∈ db.recipes, ∀ a ∈ r.ingredients,
    (db.ingredients.find? (fun i => i.id == a.ingredient_id)).isSome = true

/-- Test double for the external ingredient parser: the line `bad` is
unparsable, any other line is its own base ingredient. -/
def toy_parse : String → Option IngredientParts := fun s =>
  if s = "bad" then none else some ⟨s, none, none, none⟩

/-- The store seen by the caller after an ingestion attempt: the new
store on success, the unchanged one when the call failed. -/
def store_after (db : Store) (e : Except DatabaseError Store) : Store :=
  match e with
  | .ok s => s
  | .error _ => db

/-- Recipe-parts record with the given url, total time and ingredient
lines (remaining fields fixed). -/
def mk_parts (u : String) (tt : Nat) (lines : List String) : RecipeParts :=
  { title := "t", author := "a", url := u, description := "",
    num_steps := 0, servings := "", prep_time := 0, cook_time := 0,
    total_time := tt, ingredients := lines, steps := [] }

/-- Store holding one recipe whose ingredients are `a` and `b`. -/
def db_ab : Store :=
  store_after empty_store
    (add_from_recipe_parts toy_parse empty_store (mk_parts "u" 0 ["a", "b"]))

/-- Store holding the spec's recipe R1 (peanut butter, jelly, bread). -/
def db_pbj0 : Store :=
  store_after empty_store
    (add_from_recipe_parts toy_parse empty_store
      (mk_parts "u1" 0 ["peanut butter", "jelly", "bread"]))

/-- Store holding the spec's R1 (peanut butter, jelly, bread) and
R2 (peanut butter, chicken). -/
def db_pbj : Store :=
  store_after db_pbj0
    (add_from_recipe_parts toy_parse db_pbj0
      (mk_parts "u2" 0 ["peanut butter", "chicken"]))

/-- Store holding one recipe whose single ingredient line is unparsable,
so the recipe has zero associations. -/
def db_bad : Store :=
  store_after empty_store
    (add_from_recipe_parts toy_parse empty_store (mk_parts "u" 0 ["bad"]))

/-- Store holding one recipe containing the ingredient `x`. -/
def db_xx0 : Store :=
  store_after empty_store
    (add_from_recipe_parts toy_parse empty_store (mk_parts "w1" 0 ["x"]))

/-- Store holding two recipes that both contain the ingredient `x`. -/
def db_xx : Store :=
  store_after db_xx0
    (add_from_recipe_parts toy_parse db_xx0 (mk_parts "w2" 0 ["x"]))

/-- Store holding one recipe with `total_time = 30` and one ingredient. -/
def db30 : Store :=
  store_after empty_store
    (add_from_recipe_parts toy_parse empty_store (mk_parts "v" 30 ["a"]))

/-- Recipe list of a successful query result (empty on error). -/
def ok_list (e : Except RangeError (List Recipe)) : List Recipe :=
  match e with
  | .ok l => l
  | .error _ => []

/-- Claim C1, behavior of the code at the failing input: the store
`db_ab` holds one recipe that has an association named `a` and an
association named `b`, yet `get_recipes` with the two distinct included
terms `a` and `b` returns the empty list — both equality filters are
applied to the same joined row, so no recipe can ever satisfy two
distinct inclusion terms, contradicting the claimed per-term existential
semantics. -/
theorem claim_C1_two_distinct_include_terms_return_nothing :
    db_ab.recipes.map
        (fun r => r.ingredients.map
          (fun a => lookup_name db_ab.ingredients a.ingredient_id))
      = [[some "a", some "b"]] ∧
    get_recipes id db_ab ["a", "b"] [] none none none none = .ok [] :=
  ⟨rfl, rfl⟩

/-- Claim C2, behavior of the code at the failing input: with R1
(peanut butter, jelly, bread) and R2 (peanut butter, chicken) in the
store, `get_recipes(include_ingredients=[peanut butter],
exclude_ingredients=[chicken])` returns both recipes, not exactly [R1]:
the exclusion filter only discards the joined row whose ingredient is
chicken, while R2's peanut-butter row still satisfies every filter. -/
theorem claim_C2_exclusion_does_not_exclude_recipe :
    db_pbj.recipes.map
        (fun r => (r.url, r.ingredients.map
          (fun a => lookup_name db_pbj.ingredients a.ingredient_id)))
      = [("u1", [some "peanut butter", some "jelly", some "bread"]),
         ("u2", [some "peanut butter", some "chicken"])] ∧
    (get_recipes id db_pbj ["peanut butter"] ["chicken"]
        none none none none).map (fun l => l.map Recipe.url)
      = .ok ["u1", "u2"] :=
  ⟨rfl, rfl⟩

/-- Claim C3, counterexample: the store `db_bad` holds exactly one
recipe (its only ingredient line was unparsable, so it has zero
associations), yet `get_recipes` with no criteria returns the empty
list rather than every recipe — the generator guard makes the join
unconditional, and the join drops association-less recipes. -/
theorem claim_C3_counterexample :
    db_bad.recipes.length = 1 ∧
    get_recipes id db_bad [] [] none none none none = .ok [] :=
  ⟨rfl, rfl⟩

/-- Claim C4: the numeric range predicate of `_range_predicate` is exact
equality for a scalar, the inclusive interval for a fully given pair,
`min ≤ attribute` when only the minimum is given and `attribute ≤ max`
when only the maximum is given; concretely, the stored recipe of `db30`
with `total_time = 30` is returned for the ranges `(30, 60)`,
`(None, 30)` and `(30, None)` and is not returned for `(31, 60)`. -/
theorem claim_C4_range_semantics (v mn mx : Nat) :
    range_predicate (.scalar v) = .ok (fun x => x == v) ∧
    range_predicate (.iter [some mn, some mx])
      = .ok (fun x => decide (mn ≤ x) && decide (x ≤ mx)) ∧
    range_predicate (.iter [some mn, none]) = .ok (fun x => decide (mn ≤ x)) ∧
    range_predicate (.iter [none, some mx]) = .ok (fun x => decide (x ≤ mx)) ∧
    (get_recipes id db30 [] [] none none
        (some (.iter [some 30, some 60])) none).map (fun l => l.map Recipe.url)
      = .ok ["v"] ∧
    (get_recipes id db30 [] [] none none
        (some (.iter [none, some 30])) none).map (fun l => l.map Recipe.url)
      = .ok ["v"] ∧
    (get_recipes id db30 [] [] none none
        (some (.iter [some 30, none])) none).map (fun l => l.map Recipe.url)
      = .ok ["v"] ∧
    get_recipes id db30 [] [] none none
        (some (.iter [some 31, some 60])) none = .ok [] :=
  ⟨rfl, rfl, rfl, rfl, rfl, rfl, rfl, rfl⟩

/-- Claim C9: a range constraint given as an iterable whose length is
not two makes `_range_predicate` — and hence the whole `get_recipes`
call — fail with the invalid-range error, while constraints of correct
arity (a scalar, or any two optional bounds) never produce it. -/
theorem claim_C9_invalid_range_arity (normalize : String → String)
    (db : Store) (incl excl : List String) (xs : List (Option Nat))
    (h : xs.length ≠ 2) (b1 b2 : Option Nat) (v : Nat) :
    range_predicate (.iter xs) = .error .invalidRange ∧
    get_recipes normalize db incl excl none none (some (.iter xs)) none
      = .error .invalidRange ∧
    (∃ p, range_predicate (.iter [b1, b2]) = .ok p) ∧
    (∃ p, range_predicate (.scalar v) = .ok p) := by
  have h1 : range_predicate (.iter xs) = .error .invalidRange := by
    simp [range_predicate, h]
  refine ⟨h1, ?_, ?_, ⟨_, rfl⟩⟩
  · simp [get_recipes, generator_truthy, apply_range, h1, Except.bind]
  · cases b1 <;> cases b2 <;> exact ⟨_, rfl⟩

/-- Witness for C9 at the empty-tuple input: the zero-length range is
rejected by the whole query. -/
theorem claim_C9_invalid_range_arity_witness :
    ([] : List (Option Nat)).length ≠ 2 ∧
    get_recipes id empty_store [] [] none none (some (.iter [])) none
      = .error .invalidRange :=
  ⟨by decide,
   (claim_C9_invalid_range_arity id empty_store [] [] [] (by decide)
      none none 0).2.1⟩

/-- Ingestion succeeds when no stored recipe carries the new url, and the
committed store appends exactly one recipe row built from the parts. -/
theorem add_ok_of_fresh_url (parse : String → Option IngredientParts)
    (db : Store) (rp : RecipeParts)
    (h : ∀ r ∈ db.recipes, r.url ≠ rp.url) :
    ∃ db1, add_from_recipe_parts parse db rp = .ok db1 ∧
      ∃ rnew, db1.recipes = db.recipes ++ [rnew] ∧ rnew.url = rp.url ∧
        rnew.ingredients
          = (rp.ingredients.foldl (ingest_step parse)
              (db.ingredients, db.next_ingredient_id, [])).2.2 ∧
        db1.ingredients
          = (rp.ingredients.foldl (ingest_step parse)
              (db.ingredients, db.next_ingredient_id, [])).1 := by
  have hfilter : db.recipes.filter (fun r => r.url == rp.url) = [] := by
    rw [List.filter_eq_nil_iff]
    intro r hr
    simpa using h r hr
  unfold add_from_recipe_parts
  rw [hfilter]
  exact ⟨_, rfl, _, rfl, rfl, rfl, rfl⟩

/-- Ingestion fails with the duplicate error, before any mutation, when
some stored recipe already carries the url. -/
theorem add_error_of_dup_url (parse : String → Option IngredientParts)
    (db : Store) (rp : RecipeParts) (r : Recipe) (hr : r ∈ db.recipes)
    (hu : r.url = rp.url) :
    add_from_recipe_parts parse db rp = .error .duplicateRecipe := by
  have hne : db.recipes.filter (fun r => r.url == rp.url) ≠ [] := by
    intro hc
    rw [List.filter_eq_nil_iff] at hc
    exact hc r hr (by simp [hu])
  unfold add_from_recipe_parts
  rw [if_neg]
  simpa [List.isEmpty_iff] using hne

/-- Claim C5: with url `u` absent from the store, the first
`add_recipe` call for `u` succeeds, a second call with any record
carrying the same url fails with the duplicate error (the embedding
returns the error without producing a new store, so the state is
unchanged), and the resulting store holds exactly one recipe with
url `u`. -/
theorem claim_C5_duplicate_url (parse : String → Option IngredientParts)
    (db : Store) (rp rp2 : RecipeParts) (hurl : rp2.url = rp.url)
    (h0 : ∀ r ∈ db.recipes, r.url ≠ rp.url) :
    ∃ db1, add_from_recipe_parts parse db rp = .ok db1 ∧
      add_from_recipe_parts parse db1 rp2 = .error .duplicateRecipe ∧
      (db1.recipes.filter (fun r => r.url == rp.url)).length = 1 := by
  obtain ⟨db1, hadd, rnew, hrec, hu, -, -⟩ :=
    add_ok_of_fresh_url parse db rp h0
  refine ⟨db1, hadd, ?_, ?_⟩
  · exact add_error_of_dup_url parse db1 rp2 rnew
      (by rw [hrec]; exact List.mem_append_right _ (List.mem_singleton_self _))
      (by rw [hu, hurl])
  · have hfilter : db.recipes.filter (fun r => r.url == rp.url) = [] := by
      rw [List.filter_eq_nil_iff]
      intro r hr
      simpa using h0 r hr
    rw [hrec, List.filter_append, hfilter]
    simp [hu]

/-- Witness for C5: ingesting the same url twice into the empty store. -/
theorem claim_C5_duplicate_url_witness :
    (mk_parts "u" 0 []).url = (mk_parts "u" 0 ["a"]).url ∧
    (∀ r ∈ empty_store.recipes, r.url ≠ (mk_parts "u" 0 ["a"]).url) ∧
    ∃ db1,
      add_from_recipe_parts toy_parse empty_store (mk_parts "u" 0 ["a"])
        = .ok db1 ∧
      add_from_recipe_parts toy_parse db1 (mk_parts "u" 0 [])
        = .error .duplicateRecipe ∧
      (db1.recipes.filter
          (fun r => r.url == (mk_parts "u" 0 ["a"]).url)).length = 1 :=
  ⟨rfl, by simp [empty_store],
   claim_C5_duplicate_url toy_parse empty_store (mk_parts "u" 0 ["a"])
     (mk_parts "u" 0 []) rfl (by simp [empty_store])⟩

/-- The ingredient loop never creates an ingredient row whose name is
already present: distinctness of ingredient names is preserved across
the whole fold. -/
theorem ingest_names_nodup (parse : String → Option IngredientParts)
    (lines : List String) :
    ∀ st : List Ingredient × Nat × List RecipeIngredientAssociation,
      (st.1.map Ingredient.name).Nodup →
      (((lines.foldl (ingest_step parse) st).1).map Ingredient.name).Nodup := by
  induction lines with
  | nil => exact fun st h => h
  | cons l rest ih =>
    intro st h
    rw [List.foldl_cons]
    apply ih
    cases hp : parse l with
    | none => simpa [ingest_step, hp] using h
    | some parts =>
      cases hf : st.1.find? (fun i => i.name == parts.base_ingredient) with
      | some ing => simpa [ingest_step, hp, hf] using h
      | none =>
        simp only [ingest_step, hp, hf, List.map_append, List.map_cons,
          List.map_nil]
        rw [List.nodup_append]
        refine ⟨h, List.nodup_singleton _, ?_⟩
        intro x hx hx2
        rw [List.find?_eq_none] at hf
        obtain ⟨i, hi, hix⟩ := List.mem_map.mp hx
        have hne := hf i hi
        simp only [List.mem_singleton] at hx2
        rw [hx2] at hix
        simp [hix] at hne

/-- Claim C6: distinctness of ingredient names is an invariant of
`add_recipe` — any successful ingestion starting from a store with
pairwise-distinct ingredient names ends in one — and, concretely,
ingesting two recipes that both contain a line parsing to `x` yields a
single ingredient row named `x`, referenced by one association in each
of the two recipes. -/
theorem claim_C6_ingredient_name_unique
    (parse : String → Option IngredientParts) (db db1 : Store)
    (rp : RecipeParts) (h : (db.ingredients.map Ingredient.name).Nodup)
    (hadd : add_from_recipe_parts parse db rp = .ok db1) :
    (db1.ingredients.map Ingredient.name).Nodup ∧
    (db_xx.ingredients.map Ingredient.name = ["x"] ∧
     db_xx.recipes.map (fun r => r.ingredients.map
        (fun a => a.ingredient_id)) = [[0], [0]]) := by
  refine ⟨?_, rfl, rfl⟩
  unfold add_from_recipe_parts at hadd
  split at hadd
  · injection hadd with h1
    rw [← h1]
    exact ingest_names_nodup parse rp.ingredients
      (db.ingredients, db.next_ingredient_id, []) h
  · cases hadd

/-- Witness for C6: the first ingestion of the two-recipe scenario. -/
theorem claim_C6_ingredient_name_unique_witness :
    (empty_store.ingredients.map Ingredient.name).Nodup ∧
    ((db_xx0.ingredients.map Ingredient.name).Nodup ∧
     (db_xx.ingredients.map Ingredient.name = ["x"] ∧
      db_xx.recipes.map (fun r => r.ingredients.map
        (fun a => a.ingredient_id)) = [[0], [0]])) :=
  ⟨by decide,
   claim_C6_ingredient_name_unique toy_parse empty_store db_xx0
     (mk_parts "w1" 0 ["x"]) (by decide) rfl⟩

/-- The ingredient loop appends exactly one association per parsable
line. -/
theorem ingest_assoc_length (parse : String → Option IngredientParts)
    (lines : List String) :
    ∀ st : List Ingredient × Nat × List RecipeIngredientAssociation,
      ((lines.foldl (ingest_step parse) st).2.2).length
        = st.2.2.length + lines.countP (fun l => (parse l).isSome) := by
  induction lines with
  | nil => simp
  | cons l rest ih =>
    intro st
    rw [List.foldl_cons, ih, List.countP_cons]
    cases hp : parse l with
    | none => simp [ingest_step, hp]
    | some parts =>
      cases hf : st.1.find? (fun i => i.name == parts.base_ingredient) with
      | some ing => simp [ingest_step, hp, hf]; omega
      | none => simp [ingest_step, hp, hf]; omega

/-- Parsable and unparsable lines partition the line list. -/
theorem countP_parse_split (parse : String → Option IngredientParts)
    (lines : List String) :
    lines.countP (fun l => (parse l).isSome)
      + lines.countP (fun l => (parse l).isNone) = lines.length := by
  induction lines with
  | nil => simp
  | cons l rest ih =>
    rw [List.countP_cons, List.countP_cons, List.length_cons]
    cases hp : parse l <;> simp [hp] <;> omega

/-- Claim C7: a successful ingestion appends one recipe whose number of
associations is the number of parsable ingredient lines, i.e. the number
of lines minus the number of unparsable ones; unparsable lines are
skipped without error. -/
theorem claim_C7_unparsable_lines_skipped
    (parse : String → Option IngredientParts) (db db1 : Store)
    (rp : RecipeParts)
    (hadd : add_from_recipe_parts parse db rp = .ok db1) :
    ∃ r, db1.recipes = db.recipes ++ [r] ∧
      r.ingredients.length
        = rp.ingredients.countP (fun l => (parse l).isSome) ∧
      r.ingredients.length
        = rp.ingredients.length
          - rp.ingredients.countP (fun l => (parse l).isNone) := by
  unfold add_from_recipe_parts at hadd
  split at hadd
  · injection hadd with h1
    rw [← h1]
    refine ⟨_, rfl, ?_, ?_⟩
    · simpa using ingest_assoc_length parse rp.ingredients
        (db.ingredients, db.next_ingredient_id, [])
    · have hs := countP_parse_split parse rp.ingredients
      have hl := ingest_assoc_length parse rp.ingredients
        (db.ingredients, db.next_ingredient_id, [])
      simp at hl ⊢
      omega
  · cases hadd

/-- Witness for C7: one unparsable line out of three yields exactly two
associations. -/
theorem claim_C7_unparsable_lines_skipped_witness :
    add_from_recipe_parts toy_parse empty_store
        (mk_parts "u" 0 ["a", "bad", "c"])
      = .ok (store_after empty_store
          (add_from_recipe_parts toy_parse empty_store
            (mk_parts "u" 0 ["a", "bad", "c"]))) ∧
    ∃ r, (store_after empty_store
          (add_from_recipe_parts toy_parse empty_store
            (mk_parts "u" 0 ["a", "bad", "c"]))).recipes
        = empty_store.recipes ++ [r] ∧
      r.ingredients.length
        = (mk_parts "u" 0 ["a", "bad", "c"]).ingredients.countP
            (fun l => (toy_parse l).isSome) ∧
      r.ingredients.length
        = (mk_parts "u" 0 ["a", "bad", "c"]).ingredients.length
          - (mk_parts "u" 0 ["a", "bad", "c"]).ingredients.countP
              (fun l => (toy_parse l).isNone) :=
  ⟨rfl,
   claim_C7_unparsable_lines_skipped toy_parse empty_store _
     (mk_parts "u" 0 ["a", "bad", "c"]) rfl⟩

/-- When ingredient ids are pairwise distinct, looking an ingredient row
up again by its own id yields its name. -/
theorem lookup_name_of_mem (ings : List Ingredient) (i : Ingredient)
    (hnd : (ings.map Ingredient.id).Nodup) (hm : i ∈ ings) :
    lookup_name ings i.id = some i.name := by
  induction ings with
  | nil => cases hm
  | cons j rest ih =>
    rw [List.map_cons, List.nodup_cons] at hnd
    by_cases hj : j.id = i.id
    · have hij : i = j := by
        rcases List.mem_cons.mp hm with h | h
        · exact h
        · exfalso
          apply hnd.1
          rw [hj]
          exact List.mem_map_of_mem Ingredient.id h
      subst hij
      rw [lookup_name, List.find?_cons_of_pos _ (by simp)]
      rfl
    · have hne : i ≠ j := fun hc => hj (by rw [hc])
      have hm' : i ∈ rest := by
        rcases List.mem_cons.mp hm with h | h
        · exact absurd h hne
        · exact h
      have htail := ih hnd.2 hm'
      rw [lookup_name] at htail ⊢
      rw [List.find?_cons_of_neg _ (by simpa using hj)]
      exact htail

/-- Invariants of the ingredient loop: ingredient ids stay distinct and
below the id counter, id lookups valid before the loop remain valid after
it, and the association list grows by exactly the views of the parsable
lines, in input order. -/
theorem ingest_fold_views (parse : String → Option IngredientParts)
    (lines : List String) :
    ∀ (ings : List Ingredient) (nid : Nat)
      (assocs : List RecipeIngredientAssociation),
      (ings.map Ingredient.id).Nodup →
      (∀ i ∈ ings, i.id < nid) →
      (((lines.foldl (ingest_step parse) (ings, nid, assocs)).1.map
          Ingredient.id).Nodup) ∧
      (∀ i ∈ (lines.foldl (ingest_step parse) (ings, nid, assocs)).1,
          i.id < (lines.foldl (ingest_step parse) (ings, nid, assocs)).2.1) ∧
      (∀ iid s, lookup_name ings iid = some s →
          lookup_name (lines.foldl (ingest_step parse) (ings, nid, assocs)).1
            iid = some s) ∧
      ((lines.foldl (ingest_step parse) (ings, nid, assocs)).2.2.map
          (assoc_view (lines.foldl (ingest_step parse) (ings, nid, assocs)).1)
        = assocs.map
            (assoc_view (lines.foldl (ingest_step parse) (ings, nid, assocs)).1)
          ++ (lines.filterMap parse).map parts_view) := by
  induction lines with
  | nil => exact fun ings nid assocs hnd hfresh =>
      ⟨hnd, hfresh, fun _ _ h => h, by simp⟩
  | cons l rest ih =>
    intro ings nid assocs hnd hfresh
    rw [List.foldl_cons]
    cases hp : parse l with
    | none =>
      have hstep : ingest_step parse (ings, nid, assocs) l
          = (ings, nid, assocs) := by
        simp [ingest_step, hp]
      rw [hstep]
      obtain ⟨H1, H2, H3, H4⟩ := ih ings nid assocs hnd hfresh
      exact ⟨H1, H2, H3, by rw [H4, List.filterMap_cons, hp]⟩
    | some parts =>
      cases hf : ings.find? (fun i => i.name == parts.base_ingredient) with
      | some ing =>
        have hstep : ingest_step parse (ings, nid, assocs) l
            = (ings, nid, assocs
                ++ [⟨ing.id, parts.quantity, parts.unit, parts.modifiers⟩]) := by
          simp [ingest_step, hp, hf]
        rw [hstep]
        obtain ⟨H1, H2, H3, H4⟩ := ih ings nid
          (assocs ++ [⟨ing.id, parts.quantity, parts.unit, parts.modifiers⟩])
          hnd hfresh
        refine ⟨H1, H2, H3, ?_⟩
        rw [H4, List.filterMap_cons, hp]
        have hname : ing.name = parts.base_ingredient := by
          simpa using List.find?_some hf
        have hlook : lookup_name ings ing.id = some parts.base_ingredient := by
          rw [lookup_name_of_mem ings ing hnd (List.mem_of_find?_eq_some hf),
            hname]
        have hview : assoc_view
            (rest.foldl (ingest_step parse) (ings, nid, assocs
              ++ [⟨ing.id, parts.quantity, parts.unit, parts.modifiers⟩])).1
            ⟨ing.id, parts.quantity, parts.unit, parts.modifiers⟩
            = parts_view parts := by
          rw [assoc_view, parts_view]
          have hst := H3 ing.id parts.base_ingredient hlook
          simp only at hst ⊢
          rw [hst]
        rw [List.map_append, List.map_cons, List.map_nil, List.map_cons, hview,
          List.append_assoc, List.singleton_append]
      | none =>
        have hstep : ingest_step parse (ings, nid, assocs) l
            = (ings ++ [(⟨nid, parts.base_ingredient⟩ : Ingredient)], nid + 1,
               assocs ++ [⟨nid, parts.quantity, parts.unit,
                 parts.modifiers⟩]) := by
          simp [ingest_step, hp, hf]
        rw [hstep]
        have hnotin : nid ∉ ings.map Ingredient.id := by
          intro hc
          obtain ⟨i, hi, hid⟩ := List.mem_map.mp hc
          exact absurd hid (Nat.ne_of_lt (hfresh i hi))
        have hnd1 : ((ings ++ [(⟨nid, parts.base_ingredient⟩ : Ingredient)]).map
            Ingredient.id).Nodup := by
          rw [List.map_append, List.nodup_append]
          refine ⟨hnd, by simp, ?_⟩
          intro x hx hc
          simp only [List.map_cons, List.map_nil, List.mem_singleton] at hc
          rw [hc] at hx
          exact hnotin hx
        have hfresh1 : ∀ i ∈ ings ++ [(⟨nid, parts.base_ingredient⟩ : Ingredient)],
            i.id < nid + 1 := by
          intro i hi
          rcases List.mem_append.mp hi with h | h
          · exact Nat.lt_succ_of_lt (hfresh i h)
          · rw [List.mem_singleton.mp h]
            exact Nat.lt_succ_self _
        obtain ⟨H1, H2, H3, H4⟩ := ih (ings ++ [(⟨nid, parts.base_ingredient⟩ : Ingredient)])
          (nid + 1)
          (assocs ++ [⟨nid, parts.quantity, parts.unit, parts.modifiers⟩])
          hnd1 hfresh1
        have hstable : ∀ iid s, lookup_name ings iid = some s →
            lookup_name (ings ++ [(⟨nid, parts.base_ingredient⟩ : Ingredient)]) iid
              = some s := by
          intro iid s hl
          rw [lookup_name] at hl ⊢
          rw [List.find?_append]
          cases hfi : ings.find? (fun i => i.id == iid) with
          | none => rw [hfi] at hl; cases hl
          | some i =>
            rw [hfi] at hl
            rw [Option.or_some]
            exact hl
        refine ⟨H1, H2, fun iid s hl => H3 iid s (hstable iid s hl), ?_⟩
        rw [H4, List.filterMap_cons, hp]
        have hlooknew : lookup_name (ings ++ [(⟨nid, parts.base_ingredient⟩ : Ingredient)])
            nid = some parts.base_ingredient := by
          rw [lookup_name, List.find?_append]
          have hfn : ings.find? (fun i => i.id == nid) = none := by
            rw [List.find?_eq_none]
            intro i hi
            simpa using Nat.ne_of_lt (hfresh i hi)
          rw [hfn, List.find?_cons_of_pos _ (by simp)]
          rfl
        have hview : assoc_view
            (rest.foldl (ingest_step parse)
              (ings ++ [(⟨nid, parts.base_ingredient⟩ : Ingredient)], nid + 1,
               assocs ++ [⟨nid, parts.quantity, parts.unit,
                 parts.modifiers⟩])).1
            ⟨nid, parts.quantity, parts.unit, parts.modifiers⟩
            = parts_view parts := by
          rw [assoc_view, parts_view]
          have hst := H3 nid parts.base_ingredient hlooknew
          simp only at hst ⊢
          rw [hst]
        rw [List.map_append, List.map_cons, List.map_nil, List.map_cons, hview,
          List.append_assoc, List.singleton_append]

/-- Store holding one recipe ingested from three parsable lines. -/
def db_abc : Store :=
  store_after empty_store
    (add_from_recipe_parts toy_parse empty_store
      (mk_parts "u" 0 ["a", "b", "c"]))

/-- Claim C8: a successful ingestion appends exactly one recipe, and the
observable content of its stored associations — referenced ingredient
name, quantity, unit, modifiers — is the parser output of the input
ingredient lines, in input order, with unparsable lines skipped; in
particular three all-parsable lines are retrieved in their input
order. -/
theorem claim_C8_association_order (parse : String → Option IngredientParts)
    (db db1 : Store) (rp : RecipeParts)
    (hnd : (db.ingredients.map Ingredient.id).Nodup)
    (hfresh : ∀ i ∈ db.ingredients, i.id < db.next_ingredient_id)
    (hadd : add_from_recipe_parts parse db rp = .ok db1) :
    ∃ r, db1.recipes = db.recipes ++ [r] ∧
      r.ingredients.map (assoc_view db1.ingredients)
        = (rp.ingredients.filterMap parse).map parts_view := by
  unfold add_from_recipe_parts at hadd
  split at hadd
  · injection hadd with h1
    rw [← h1]
    refine ⟨_, rfl, ?_⟩
    obtain ⟨-, -, -, H4⟩ := ingest_fold_views parse rp.ingredients
      db.ingredients db.next_ingredient_id [] hnd hfresh
    simpa using H4
  · cases hadd

/-- Witness for C8: the three parsable lines a, b, c come back in input
order. -/
theorem claim_C8_association_order_witness :
    (empty_store.ingredients.map Ingredient.id).Nodup ∧
    (∀ i ∈ empty_store.ingredients, i.id < empty_store.next_ingredient_id) ∧
    ∃ r, db_abc.recipes = empty_store.recipes ++ [r] ∧
      r.ingredients.map (assoc_view db_abc.ingredients)
        = ((mk_parts "u" 0 ["a", "b", "c"]).ingredients.filterMap
            toy_parse).map parts_view :=
  ⟨by decide, by decide,
   claim_C8_association_order toy_parse empty_store db_abc
     (mk_parts "u" 0 ["a", "b", "c"]) (by decide) (by decide) rfl⟩

/-- Every recipe produced by the uniquing pass comes from the row list. -/
theorem mem_of_mem_dedup_go :
    ∀ (l : List Recipe) (seen : List Nat) (r : Recipe),
      r ∈ dedup_go seen l → r ∈ l := by
  intro l
  induction l with
  | nil => intro seen r h; exact absurd h (by simp [dedup_go])
  | cons x xs ih =>
    intro seen r h
    rw [dedup_go] at h
    by_cases hc : seen.contains x.id
    · rw [if_pos hc] at h
      exact List.mem_cons_of_mem _ (ih _ _ h)
    · rw [if_neg hc] at h
      rcases List.mem_cons.mp h with h1 | h2
      · rw [h1]; exact List.mem_cons_self _ _
      · exact List.mem_cons_of_mem _ (ih _ _ h2)

/-- Rows whose recipe id was already seen are dropped by the uniquing
pass without affecting the rest. -/
theorem dedup_go_append_skip :
    ∀ (xs ys : List Recipe) (seen : List Nat),
      (∀ x ∈ xs, seen.contains x.id = true) →
      dedup_go seen (xs ++ ys) = dedup_go seen ys := by
  intro xs
  induction xs with
  | nil => intro ys seen _; rfl
  | cons x rest ih =>
    intro ys seen h
    rw [List.cons_append, dedup_go, if_pos (h x (List.mem_cons_self _ _))]
    exact ih ys seen (fun y hy => h y (List.mem_cons_of_mem _ hy))

/-- Uniquing the join rows — one copy of each recipe per association —
returns exactly the recipes that have at least one association, in store
order, once each. -/
theorem dedup_go_blocks :
    ∀ (rs : List Recipe) (seen : List Nat),
      ((rs.map Recipe.id).Nodup) →
      (∀ r ∈ rs, seen.contains r.id = false) →
      dedup_go seen (rs.flatMap (fun r => r.ingredients.map (fun _ => r)))
        = rs.filter (fun r => !r.ingredients.isEmpty) := by
  intro rs
  induction rs with
  | nil => intro seen _ _; rfl
  | cons r rest ih =>
    intro seen hnd hseen
    rw [List.map_cons, List.nodup_cons] at hnd
    rw [List.flatMap_cons]
    cases hing : r.ingredients with
    | nil =>
      rw [List.map_nil, List.nil_append,
        ih seen hnd.2 (fun x hx => hseen x (List.mem_cons_of_mem _ hx))]
      simp [List.filter_cons, hing]
    | cons a as =>
      rw [List.map_cons, List.cons_append, dedup_go,
        if_neg (by rw [hseen r (List.mem_cons_self _ _)]; simp)]
      rw [dedup_go_append_skip _ _ _ ?hskip]
      case hskip =>
        intro x hx
        obtain ⟨a1, ha1, he⟩ := List.mem_map.mp hx
        rw [← he]
        simp
      have hrest : ∀ x ∈ rest, (r.id :: seen).contains x.id = false := by
        intro x hx
        have hxid : x.id ≠ r.id := by
          intro hc
          exact hnd.1 (hc ▸ List.mem_map_of_mem Recipe.id hx)
        have hxseen := hseen x (List.mem_cons_of_mem _ hx)
        simp only [List.contains_cons, Bool.or_eq_false_iff]
        exact ⟨by simpa using hxid, hxseen⟩
      rw [ih (r.id :: seen) hnd.2 hrest, List.filter_cons]
      simp [hing]

/-- When every association of a recipe resolves, each association
contributes exactly one joined row carrying that recipe. -/
theorem filterMap_join_fst (ings : List Ingredient) (r : Recipe) :
    ∀ assocs : List RecipeIngredientAssociation,
      (∀ a ∈ assocs,
        (ings.find? (fun i => i.id == a.ingredient_id)).isSome = true) →
      (assocs.filterMap (fun a =>
          (ings.find? (fun i => i.id == a.ingredient_id)).map
            (fun i => (r, i)))).map (fun x => x.1)
        = assocs.map (fun _ => r) := by
  intro assocs
  induction assocs with
  | nil => intro _; rfl
  | cons a as ih =>
    intro h
    obtain ⟨i, hi⟩ := Option.isSome_iff_exists.mp
      (h a (List.mem_cons_self _ _))
    rw [List.filterMap_cons, hi]
    simp only [Option.map_some']
    rw [List.map_cons, List.map_cons,
      ih (fun x hx => h x (List.mem_cons_of_mem _ hx))]

/-- Projecting the joined rows onto their recipe component gives one
copy of each recipe per association, for any recipe list whose
associations all resolve against the ingredient table. -/
theorem flatMap_join_fst (ings : List Ingredient) :
    ∀ rs : List Recipe,
      (∀ r ∈ rs, ∀ a ∈ r.ingredients,
        (ings.find? (fun i => i.id == a.ingredient_id)).isSome = true) →
      (rs.flatMap (fun r =>
          r.ingredients.filterMap (fun a =>
            (ings.find? (fun i => i.id == a.ingredient_id)).map
              (fun i => (r, i))))).map (fun x => x.1)
        = rs.flatMap (fun r => r.ingredients.map (fun _ => r)) := by
  intro rs
  induction rs with
  | nil => intro _; rfl
  | cons r rest ih =>
    intro h
    rw [List.flatMap_cons, List.flatMap_cons, List.map_append,
      filterMap_join_fst ings r r.ingredients (h r (List.mem_cons_self _ _)),
      ih (fun x hx => h x (List.mem_cons_of_mem _ hx))]

/-- Claim C3 amended: with no criteria at all, `get_recipes` on a
well-formed store returns every recipe that has at least one ingredient
association, exactly once each and in store order; recipes with zero
associations are dropped by the unconditional join. -/
theorem claim_C3_amended_no_criteria (normalize : String → String)
    (db : Store) (h : db.wf) :
    get_recipes normalize db [] [] none none none none
      = .ok (db.recipes.filter (fun r => !r.ingredients.isEmpty)) := by
  obtain ⟨hnd, hres⟩ := h
  unfold get_recipes
  simp only [List.map_nil, generator_truthy, Bool.or_self, if_true,
    List.foldl_nil, apply_range, Except.bind]
  rw [query_unique, triple_join, flatMap_join_fst db.ingredients db.recipes hres,
    dedup_go_blocks db.recipes [] hnd (fun r _ => rfl)]

/-- Witness for C3's amended claim: on the two-recipe store both recipes
have associations and both are returned once. -/
theorem claim_C3_amended_no_criteria_witness :
    db_pbj.wf ∧
    get_recipes id db_pbj [] [] none none none none
      = .ok (db_pbj.recipes.filter (fun r => !r.ingredients.isEmpty)) :=
  ⟨⟨by decide, by decide⟩,
   claim_C3_amended_no_criteria id db_pbj ⟨by decide, by decide⟩⟩

/-- Bind on a successful computation runs the continuation. -/
theorem except_bind_ok {ε α β : Type} (a : α) (f : α → Except ε β) :
    Except.bind (.ok a) f = f a := rfl

/-- Bind on a failed computation propagates the error. -/
theorem except_bind_error {ε α β : Type} (e : ε) (f : α → Except ε β) :
    Except.bind (.error e) f = .error e := rfl

/-- The per-term ingredient filters of `get_recipes` only discard joined
rows. -/
theorem mem_foldl_filter {α : Type} (q : String → α → Bool) :
    ∀ (names : List String) (rows : List α) (x : α),
      x ∈ names.foldl (fun rs n => rs.filter (q n)) rows → x ∈ rows := by
  intro names
  induction names with
  | nil => intro rows x h; exact h
  | cons n rest ih =>
    intro rows x h
    rw [List.foldl_cons] at h
    exact List.mem_of_mem_filter (ih _ _ h)

/-- A numeric range filter only discards rows. -/
theorem apply_range_ok_mem {α : Type} (attr : α → Nat) (c : Option RangeArg)
    (xs ys : List α) (h : apply_range attr c xs = .ok ys) :
    ∀ y ∈ ys, y ∈ xs := by
  cases c with
  | none =>
    unfold apply_range at h
    injection h with h1
    rw [← h1]
    exact fun y hy => hy
  | some arg =>
    rw [show apply_range attr (some arg) xs
        = Except.bind (range_predicate arg)
          (fun p => .ok (xs.filter (fun x => p (attr x)))) from rfl] at h
    cases hr : range_predicate arg with
    | error e =>
      rw [hr, except_bind_error] at h
      cases h
    | ok p =>
      rw [hr, except_bind_ok] at h
      injection h with h1
      rw [← h1]
      exact fun y hy => List.mem_of_mem_filter hy

/-- Every joined row's recipe has the association that produced the
row, so its association list is nonempty. -/
theorem mem_triple_join_ne_nil (db : Store) (x : Recipe × Ingredient)
    (h : x ∈ triple_join db) : x.1.ingredients ≠ [] := by
  unfold triple_join at h
  obtain ⟨r, hr, hx⟩ := List.mem_flatMap.mp h
  obtain ⟨a, ha, he⟩ := List.mem_filterMap.mp hx
  obtain ⟨i, hi, hxe⟩ := Option.map_eq_some'.mp he
  rw [← hxe]
  exact List.ne_nil_of_mem ha

/-- Every recipe surviving the range-filter chain and the uniquing pass
of the joined branch of `get_recipes` comes from one of the joined
rows. -/
theorem bind_chain_mem (pt ct tt ns : Option RangeArg)
    (rows : List (Recipe × Ingredient)) (rs : List Recipe)
    (h : Except.bind (apply_range (fun x => x.1.total_time) tt rows)
      (fun rows => Except.bind (apply_range (fun x => x.1.cook_time) ct rows)
        (fun rows => Except.bind (apply_range (fun x => x.1.prep_time) pt rows)
          (fun rows => Except.bind
            (apply_range (fun x => x.1.num_steps) ns rows)
            (fun rows => .ok (query_unique (rows.map (fun x => x.1)))))))
      = .ok rs) :
    ∀ r ∈ rs, ∃ x ∈ rows, x.1 = r := by
  cases e1 : apply_range (fun x => x.1.total_time) tt rows with
  | error e => rw [e1, except_bind_error] at h; cases h
  | ok rows1 =>
    rw [e1, except_bind_ok] at h
    cases e2 : apply_range (fun x => x.1.cook_time) ct rows1 with
    | error e => rw [e2, except_bind_error] at h; cases h
    | ok rows2 =>
      rw [e2, except_bind_ok] at h
      cases e3 : apply_range (fun x => x.1.prep_time) pt rows2 with
      | error e => rw [e3, except_bind_error] at h; cases h
      | ok rows3 =>
        rw [e3, except_bind_ok] at h
        cases e4 : apply_range (fun x => x.1.num_steps) ns rows3 with
        | error e => rw [e4, except_bind_error] at h; cases h
        | ok rows4 =>
          rw [e4, except_bind_ok] at h
          injection h with h1
          intro r hr
          rw [← h1, query_unique] at hr
          obtain ⟨x, hx4, hxe⟩ :=
            List.mem_map.mp (mem_of_mem_dedup_go _ _ _ hr)
          refine ⟨x, ?_, hxe⟩
          exact apply_range_ok_mem _ tt rows rows1 e1 x
            (apply_range_ok_mem _ ct rows1 rows2 e2 x
              (apply_range_ok_mem _ pt rows2 rows3 e3 x
                (apply_range_ok_mem _ ns rows3 rows4 e4 x hx4)))

/-- Claim C10: whatever the criteria — including none — a recipe with
zero ingredient associations never appears in a `get_recipes` result:
both ingredient-term arguments are rebound to always-truthy generator
objects, so the query always selects from the association join, and a
recipe without associations contributes no joined row. -/
theorem claim_C10_assocless_never_returned (normalize : String → String)
    (db : Store) (incl excl : List String) (pt ct tt ns : Option RangeArg)
    (rs : List Recipe)
    (h : get_recipes normalize db incl excl pt ct tt ns = .ok rs) :
    rs.all (fun r => !r.ingredients.isEmpty) = true := by
  unfold get_recipes at h
  simp only [generator_truthy, Bool.or_self, if_true] at h
  have hm := bind_chain_mem pt ct tt ns _ rs h
  rw [List.all_eq_true]
  intro r hr
  obtain ⟨x, hx, hxe⟩ := hm r hr
  have hx1 := mem_foldl_filter
    (fun n (x : Recipe × Ingredient) => x.2.name != n) _ _ _ hx
  have hx2 := mem_foldl_filter
    (fun n (x : Recipe × Ingredient) => x.2.name == n) _ _ _ hx1
  have hne := mem_triple_join_ne_nil db x hx2
  rw [← hxe]
  simpa [List.isEmpty_iff] using hne

/-- Witness for C10: on the two-recipe store with no criteria, every
returned recipe has at least one association. -/
theorem claim_C10_assocless_never_returned_witness :
    get_recipes id db_pbj [] [] none none none none
      = .ok (ok_list (get_recipes id db_pbj [] [] none none none none)) ∧
    (ok_list (get_recipes id db_pbj [] [] none none none none)).all
        (fun r => !r.ingredients.isEmpty) = true :=
  ⟨rfl,
   claim_C10_assocless_never_returned id db_pbj [] [] none none none none
     (ok_list (get_recipes id db_pbj [] [] none none none none)) rfl⟩
